import Mathlib

/-!
Verification development for the tidy-table pipeline in
src/scripts/load_merge.py (uk-road-safety-data-pipeline-dash).

The script is embedded shallowly: a pandas DataFrame becomes a `Table`
(a list of column names plus rows of optional string cells, where `none`
models NaN/NaT/null), pandas operations used by the script (rename,
column selection, left merge, to_datetime, column assignment) become
executable Lean functions with the semantics the script relies on, and
the script's `main` becomes `mainRun` over an abstract source directory.
-/

/-- A cell of a table: `none` models a pandas missing value (NaN/NaT). -/
abbrev Cell := Option String

/-- A pandas DataFrame, shallowly: ordered column names and rows of cells.
Rows are positional; cell `j` of a row belongs to column `j`. -/
structure Table where
  cols : List String
  rows : List (List Cell)
deriving DecidableEq, Repr

/-! ## Python string-method model (for `c.strip().lower().replace(" ", "_")`) -/

/-- Python `str.strip` whitespace test (ASCII whitespace, as in CPython's
default strip set restricted to the code points that occur in CSV headers). -/
def pyIsSpace (c : Char) : Bool :=
  c.toNat = 32 || c.toNat = 9 || c.toNat = 10 || c.toNat = 13 || c.toNat = 11 || c.toNat = 12

/-- Python `str.lower` on one character (ASCII range, as in CSV headers). -/
def pyLowerChar (c : Char) : Char :=
  if h : 65 ≤ c.toNat ∧ c.toNat ≤ 90 then
    ⟨⟨BitVec.ofNatLt (c.toNat + 32) (by omega)⟩, Or.inl (by
      change c.toNat + 32 < 55296
      omega)⟩
  else c

/-- Python `str.replace(" ", "_")` on one character. -/
def pyReplChar (c : Char) : Char :=
  if c.toNat = 32 then '_' else c

/-- Python `str.strip`: drop leading and trailing whitespace. -/
def pyStrip (s : List Char) : List Char :=
  ((s.dropWhile pyIsSpace).reverse.dropWhile pyIsSpace).reverse

/-- `c.strip().lower().replace(" ", "_")` from `normalise_cols` (line 17). -/
def normName (s : String) : String :=
  ⟨((pyStrip s.data).map pyLowerChar).map pyReplChar⟩

/-- `normalise_cols` (lines 16-18): rename every column through `normName`;
rows are untouched. -/
def normalise_cols (df : Table) : Table :=
  { cols := df.cols.map normName, rows := df.rows }

/-! ## Positional cell access and column assignment -/

/-- Read the cell of column `n` from row `r` (columns and cells walked in
lockstep; a missing column or a short row reads as null). -/
def getCell : List String → List Cell → String → Cell
  | [], _, _ => none
  | c :: cs, r, n => if c = n then r.headD none else getCell cs r.tail n

/-- Copy row `r` aligned to `cols` (pads short rows with nulls, truncates
extra cells), used when a column assignment appends a new column. -/
def padRow : List String → List Cell → List Cell
  | [], _ => []
  | _ :: cs, r => r.headD none :: padRow cs r.tail

/-- Overwrite every position of row `r` whose column is named `n` with `v`,
keeping the other cells (pandas `df[n] = ...` when `n` is an existing column). -/
def setAll : List String → List Cell → String → Cell → List Cell
  | [], _, _, _ => []
  | c :: cs, r, n, v => (if c = n then v else r.headD none) :: setAll cs r.tail n v

/-- pandas column assignment `df[n] = vs`: replaces column `n` in place when
present, otherwise appends it on the right. -/
def setColVals (t : Table) (n : String) (vs : List Cell) : Table :=
  if n ∈ t.cols then
    { cols := t.cols, rows := List.zipWith (fun r v => setAll t.cols r n v) t.rows vs }
  else
    { cols := t.cols ++ [n], rows := List.zipWith (fun r v => padRow t.cols r ++ [v]) t.rows vs }

/-! ## Date parsing and derivation (lines 35-39)

`pd.to_datetime(..., errors="coerce", dayfirst=True)` is an external pandas
collaborator; it is modelled here on slash-separated numeric dates (the format
of the dataset) as a day-first `d/m/y` parse with real calendar validation,
coercing anything else to null.  `.dt.year` and
`.dt.to_period("M").dt.to_timestamp()` become the derived year and the
month-start date; date-typed values are encoded as canonical
`YYYY-MM-DD` strings. -/

/-- Split a character list on `/`. -/
def splitSlash : List Char → List (List Char)
  | [] => [[]]
  | c :: cs =>
    let r := splitSlash cs
    if c = '/' then [] :: r else (c :: r.headD []) :: r.tail

/-- Read a nonempty all-digit character list as a number. -/
def digitsVal : List Char → Option Nat
  | cs =>
    if cs ≠ [] ∧ cs.all Char.isDigit then
      some (cs.foldl (fun a c => 10 * a + (c.toNat - 48)) 0)
    else none

def isLeapYear (y : Nat) : Bool :=
  (y % 4 = 0 && y % 100 ≠ 0) || y % 400 = 0

def daysInMonth (y m : Nat) : Nat :=
  if m = 2 then (if isLeapYear y then 29 else 28)
  else if m = 4 || m = 6 || m = 9 || m = 11 then 30
  else 31

/-- Day-first parse of one cell into `(year, month, day)`; null and
unparseable values coerce to `none` (pandas `errors="coerce"`). -/
def parseDayFirst : Cell → Option (Nat × Nat × Nat)
  | none => none
  | some s =>
    match splitSlash s.data with
    | [ds, ms, ys] =>
      match digitsVal ds, digitsVal ms, digitsVal ys with
      | some d, some m, some y =>
        if 1 ≤ m ∧ m ≤ 12 ∧ 1 ≤ d ∧ d ≤ daysInMonth y m then some (y, m, d) else none
      | _, _, _ => none
    | _ => none

/-- Zero-pad the decimal form of `n` to width `w`. -/
def pad0 (w n : Nat) : String :=
  ⟨List.replicate (w - (Nat.repr n).data.length) '0' ++ (Nat.repr n).data⟩

def dateStr (ymd : Nat × Nat × Nat) : String :=
  pad0 4 ymd.1 ++ "-" ++ pad0 2 ymd.2.1 ++ "-" ++ pad0 2 ymd.2.2

def yearStr (ymd : Nat × Nat × Nat) : String :=
  Nat.repr ymd.1

def monthStr (ymd : Nat × Nat × Nat) : String :=
  pad0 4 ymd.1 ++ "-" ++ pad0 2 ymd.2.1 ++ "-01"

/-- The parse of the resolved date column, row by row. -/
def parsedDates (t : Table) (dc : String) : List (Option (Nat × Nat × Nat)) :=
  t.rows.map (fun r => parseDayFirst (getCell t.cols r dc))

/-- Lines 37-39: parse the resolved date column day-first in place and derive
the `year` and `month` (month-start) columns from it. -/
def deriveDates (t : Table) (dc : String) : Table :=
  setColVals
    (setColVals
      (setColVals t dc ((parsedDates t dc).map (fun o => o.map dateStr)))
      "year" ((parsedDates t dc).map (fun o => o.map yearStr)))
    "month" ((parsedDates t dc).map (fun o => o.map monthStr))

/-- Line 35: `next((c for c in acc.columns if c in ["date","accident_date"]), None)` —
the first column OF THE TABLE that is one of the two candidate names. -/
def resolveDateCol (cols : List String) : Option String :=
  cols.find? (fun c => c == "date" || c == "accident_date")

/-- Whatever the resolver returns is one of the two candidate names, so the
`date_col` the projection later receives is never an outcome or optional
field name. -/
theorem resolveDateCol_spec (cols : List String) (s : String)
    (h : resolveDateCol cols = some s) : s = "date" ∨ s = "accident_date" := by
  have hp := List.find?_some h
  simpa using hp

/-! ## Left merge (pandas `DataFrame.merge(how="left")`, same-named keys)

Both merges in the script use identically named `left_on`/`right_on`
columns, so the key columns collapse into one; non-key columns shared by
both sides get the origin suffixes.  Key matching follows pandas NaN
semantics: a null key never matches anything. -/

/-- pandas key equality: null keys compare unequal to everything (NaN ≠ NaN). -/
def cellEq : Cell → Cell → Bool
  | some a, some b => a == b
  | _, _ => false

/-- Does right row `rr` match left row `lr` on every join key? -/
def rowMatches (keys lcols : List String) (lr : List Cell) (rcols : List String) (rr : List Cell) : Bool :=
  keys.all (fun k => cellEq (getCell lcols lr k) (getCell rcols rr k))

/-- The right-hand columns that survive a same-named-key merge. -/
def nonKeyCols (keys cols : List String) : List String :=
  cols.filter (fun c => !keys.contains c)

/-- The non-key cells of right row `r`, in right column order. -/
def rightPart (keys : List String) : List String → List Cell → List Cell
  | [], _ => []
  | c :: cs, r =>
    if keys.contains c then rightPart keys cs r.tail
    else r.headD none :: rightPart keys cs r.tail

/-- Result column names: left columns, then right non-key columns, with the
origin suffix on any non-key name present on both sides. -/
def mergedCols (keys : List String) (sufL sufR : String) (lcols rcols : List String) : List String :=
  lcols.map (fun c => if !keys.contains c && rcols.contains c then c ++ sufL else c)
    ++ (nonKeyCols keys rcols).map (fun c => if lcols.contains c then c ++ sufR else c)

/-- Output rows contributed by one left row: one per matching right row, in
right order, or a single null-extended row when nothing matches. -/
def mergeRowsFor (keys : List String) (L R : Table) (lr : List Cell) : List (List Cell) :=
  let ms := R.rows.filter (fun rr => rowMatches keys L.cols lr R.cols rr)
  if ms.isEmpty then [lr ++ List.replicate (nonKeyCols keys R.cols).length none]
  else ms.map (fun rr => lr ++ rightPart keys R.cols rr)

/-- `L.merge(R, how="left", left_on=keys, right_on=keys, suffixes=(sufL, sufR))`
assuming the key columns exist on both sides. -/
def mergeLeftOn (keys : List String) (sufL sufR : String) (L R : Table) : Table :=
  { cols := mergedCols keys sufL sufR L.cols R.cols,
    rows := L.rows.flatMap (mergeRowsFor keys L R) }

/-- The merge call itself: pandas raises `KeyError` when a join key is not a
column of its side. -/
def mergeLeftOnE (keys : List String) (sufL sufR : String) (L R : Table) : Except String Table :=
  if keys.all (fun k => L.cols.contains k) && keys.all (fun k => R.cols.contains k)
  then .ok (mergeLeftOn keys sufL sufR L R) else .error "KeyError"

/-- pandas `df[cs]` column selection: `KeyError` unless every requested
column exists; otherwise project onto `cs` in the requested order. -/
def selectColsE (t : Table) (cs : List String) : Except String Table :=
  if cs.all (fun c => t.cols.contains c)
  then .ok { cols := cs, rows := t.rows.map (fun r => cs.map (getCell t.cols r)) }
  else .error "KeyError"

/-- Lines 42-51: `cas.merge(veh[[veh_id, veh_ref]], how="left", ...)` followed
by `cas.merge(acc, how="left", left_on=cas_id, right_on=acc_id,
suffixes=("_cas","_acc"))`.  Note the vehicle table is first cut down to its
two key columns. -/
def joinStage (cas veh acc : Table) : Except String Table := do
  let vehSel ← selectColsE veh ["accident_index", "vehicle_reference"]
  let cas1 ← mergeLeftOnE ["accident_index", "vehicle_reference"] "" "" cas vehSel
  mergeLeftOnE ["accident_index"] "_cas" "_acc" cas1 acc

/-! ## Projection and rename (lines 54-80) -/

/-- The `keep_cols` literal of lines 54-74, entry for entry (`none` models
Python `None`). -/
def keepColsRaw (jcols : List String) (dc : Option String) : List (Option String) :=
  [ some "accident_index", some "vehicle_reference",
    some (if jcols.contains "severity" then "severity" else "casualty_severity"),
    some "casualty_class", some "sex_of_casualty", some "age_band_of_casualty",
    if jcols.contains "sex_of_driver" then some "sex_of_driver" else none,
    if jcols.contains "age_band_of_driver" then some "age_band_of_driver" else none,
    if jcols.contains "vehicle_type" then some "vehicle_type" else none,
    dc, some "year", some "month",
    some "light_conditions", some "weather_conditions", some "road_type", some "speed_limit",
    if jcols.contains "local_authority_(district)" then some "local_authority_(district)" else none,
    if jcols.contains "police_force" then some "police_force" else none,
    if jcols.contains "number_of_vehicles" then some "number_of_vehicles" else none,
    if jcols.contains "number_of_casualties" then some "number_of_casualties" else none,
    if jcols.contains "longitude" then some "longitude" else none,
    if jcols.contains "latitude" then some "latitude" else none ]

/-- Line 75: `keep_cols = [c for c in keep_cols if c and c in joined.columns]`
(`if c` drops both `None` and the empty string). -/
def keepCols (jcols : List String) (dc : Option String) : List String :=
  ((keepColsRaw jcols dc).filterMap id).filter (fun c => !(c == "") && jcols.contains c)

/-- Lines 79-80: rename `casualty_severity` to `severity` when the former is
present and the latter is not. -/
def renameSeverity (t : Table) : Table :=
  if t.cols.contains "casualty_severity" && !(t.cols.contains "severity") then
    { cols := t.cols.map (fun c => if c = "casualty_severity" then "severity" else c),
      rows := t.rows }
  else t

/-- Lines 54-80: select the kept columns (`joined[keep_cols]`) and
canonicalize the outcome column name. -/
def projectAndRename (joined : Table) (dc : Option String) : Except String Table := do
  let tidy ← selectColsE joined (keepCols joined.cols dc)
  .ok (renameSeverity tidy)

/-! ## The run (lines 4-14 and `main`) -/

/-- The source directory: the four file names the script may read, each
either present (with its parsed CSV contents) or absent. -/
structure Dir where
  accidents : Option Table
  collisions : Option Table
  vehicles : Option Table
  casualties : Option Table
deriving DecidableEq, Repr

/-- Line 8: `ACC_FILE = RAW / ("Accidents.csv" if (RAW / "Accidents.csv").exists() else "Collisions.csv")`. -/
def accFile (d : Dir) : Option Table :=
  if d.accidents.isSome then d.accidents else d.collisions

/-- `read_csv_fast`: reading an absent file raises (FileNotFoundError). -/
def read_csv (f : Option Table) : Except String Table :=
  match f with
  | some t => .ok t
  | none => .error "FileNotFoundError"

/-- `main` (lines 20-85), up to the tidy table handed to the parquet sink. -/
def mainRun (d : Dir) : Except String Table := do
  let acc0 ← read_csv (accFile d)
  let veh0 ← read_csv d.vehicles
  let cas0 ← read_csv d.casualties
  let acc1 := normalise_cols acc0
  let veh := normalise_cols veh0
  let cas := normalise_cols cas0
  let dc := resolveDateCol acc1.cols
  let acc := match dc with
    | some c => deriveDates acc1 c
    | none => acc1
  let joined ← joinStage cas veh acc
  projectAndRename joined dc

/-! ## C7: column normalization is idempotent -/

theorem toNat_pyLowerChar (c : Char) :
    (pyLowerChar c).toNat = if 65 ≤ c.toNat ∧ c.toNat ≤ 90 then c.toNat + 32 else c.toNat := by
  unfold pyLowerChar
  split <;> rfl

theorem toNat_pyReplChar (c : Char) :
    (pyReplChar c).toNat = if c.toNat = 32 then 95 else c.toNat := by
  unfold pyReplChar
  split <;> simp_all

theorem pyIsSpace_eq_false_iff (c : Char) :
    pyIsSpace c = false ↔
      c.toNat ≠ 32 ∧ c.toNat ≠ 9 ∧ c.toNat ≠ 10 ∧ c.toNat ≠ 13 ∧ c.toNat ≠ 11 ∧ c.toNat ≠ 12 := by
  simp [pyIsSpace, and_assoc]

/-- One pass of lower-then-replace on a character. -/
def normChar (c : Char) : Char := pyReplChar (pyLowerChar c)

theorem toNat_normChar (c : Char) :
    (normChar c).toNat =
      if 65 ≤ c.toNat ∧ c.toNat ≤ 90 then c.toNat + 32
      else if c.toNat = 32 then 95 else c.toNat := by
  unfold normChar
  rw [toNat_pyReplChar, toNat_pyLowerChar]
  split <;> [skip; rfl]
  rw [if_neg (by omega)]

theorem char_eq_of_toNat_eq {a b : Char} (h : a.toNat = b.toNat) : a = b := by
  cases a with
  | mk va pa =>
    cases b with
    | mk vb pb =>
      cases va; cases vb
      congr 2
      exact BitVec.eq_of_toNat_eq h

theorem normChar_idem (c : Char) : normChar (normChar c) = normChar c := by
  apply char_eq_of_toNat_eq
  rw [toNat_normChar (normChar c), toNat_normChar c]
  split_ifs <;> omega

theorem pyIsSpace_normChar (c : Char) (h : pyIsSpace c = false) :
    pyIsSpace (normChar c) = false := by
  rw [pyIsSpace_eq_false_iff] at h ⊢
  rw [toNat_normChar]
  split <;> [omega; skip]
  split <;> omega

theorem head_dropWhile_false {α} (p : α → Bool) :
    ∀ (l : List α) (a : α), (l.dropWhile p).head? = some a → p a = false := by
  intro l
  induction l with
  | nil => simp
  | cons b t ih =>
    intro a
    rw [List.dropWhile_cons]
    by_cases hb : p b = true
    · rw [if_pos hb]
      exact ih a
    · rw [if_neg hb]
      intro h
      obtain rfl : b = a := by simpa using h
      simpa using hb

theorem getLast_dropWhile {α} (p : α → Bool) (l : List α) (a : α)
    (h : (l.dropWhile p).getLast? = some a) : l.getLast? = some a := by
  obtain ⟨t, ht⟩ := List.dropWhile_suffix (l := l) p
  rw [← ht, List.getLast?_append, h]
  rfl

theorem dropWhile_eq_self_of_head {α} (p : α → Bool) (l : List α)
    (h : ∀ a, l.head? = some a → p a = false) : l.dropWhile p = l := by
  cases l with
  | nil => rfl
  | cons b t =>
    rw [List.dropWhile_cons, if_neg (by simp [h b rfl])]

theorem head_pyStrip_false (s : List Char) (a : Char)
    (h : (pyStrip s).head? = some a) : pyIsSpace a = false := by
  unfold pyStrip at h
  rw [List.head?_reverse] at h
  have h2 := getLast_dropWhile _ _ _ h
  rw [List.getLast?_reverse] at h2
  exact head_dropWhile_false _ _ _ h2

theorem getLast_pyStrip_false (s : List Char) (a : Char)
    (h : (pyStrip s).getLast? = some a) : pyIsSpace a = false := by
  unfold pyStrip at h
  rw [List.getLast?_reverse] at h
  exact head_dropWhile_false _ _ _ h

theorem pyStrip_eq_self (l : List Char)
    (hhead : ∀ a, l.head? = some a → pyIsSpace a = false)
    (hlast : ∀ a, l.getLast? = some a → pyIsSpace a = false) : pyStrip l = l := by
  unfold pyStrip
  rw [dropWhile_eq_self_of_head _ _ hhead]
  rw [dropWhile_eq_self_of_head _ _ (fun a ha =>
    hlast a (by rwa [List.head?_reverse] at ha))]
  exact List.reverse_reverse _

theorem pyStrip_map_normChar (s : List Char) :
    pyStrip ((pyStrip s).map normChar) = (pyStrip s).map normChar := by
  have hhead : ∀ a, ((pyStrip s).map normChar).head? = some a → pyIsSpace a = false := by
    intro a ha
    rw [List.head?_map] at ha
    cases hb : (pyStrip s).head? with
    | none => rw [hb] at ha; simp at ha
    | some b =>
      rw [hb] at ha
      obtain rfl : normChar b = a := by simpa using ha
      exact pyIsSpace_normChar b (head_pyStrip_false s b hb)
  have hlast : ∀ a, ((pyStrip s).map normChar).getLast? = some a → pyIsSpace a = false := by
    intro a ha
    rw [List.getLast?_map] at ha
    cases hb : (pyStrip s).getLast? with
    | none => rw [hb] at ha; simp at ha
    | some b =>
      rw [hb] at ha
      obtain rfl : normChar b = a := by simpa using ha
      exact pyIsSpace_normChar b (getLast_pyStrip_false s b hb)
  exact pyStrip_eq_self _ hhead hlast

theorem normName_eq_map (s : String) :
    normName s = ⟨(pyStrip s.data).map normChar⟩ := by
  unfold normName
  rw [List.map_map]
  rfl

theorem normName_idem (s : String) : normName (normName s) = normName s := by
  rw [normName_eq_map s, normName_eq_map ⟨(pyStrip s.data).map normChar⟩]
  show String.mk ((pyStrip ((pyStrip s.data).map normChar)).map normChar) = _
  rw [pyStrip_map_normChar, List.map_map]
  congr 1
  exact List.map_congr_left (fun a _ => normChar_idem a)

/-- C7: column-name normalization is idempotent — normalizing an
already-normalized table yields the identical table — and every application
leaves the rows (count and order) unchanged. -/
theorem normalise_cols_idem (t : Table) :
    normalise_cols (normalise_cols t) = normalise_cols t ∧
    (normalise_cols t).rows = t.rows := by
  refine ⟨?_, rfl⟩
  unfold normalise_cols
  simp only [List.map_map]
  congr 1
  exact List.map_congr_left (fun a _ => normName_idem a)

/-! ## C2: the two left joins keep exactly one row per casualty -/

theorem contains_iff {l : List String} {a : String} : l.contains a = true ↔ a ∈ l :=
  List.elem_iff

theorem cellEq_iff {a b : Cell} : cellEq a b = true ↔ ∃ v, a = some v ∧ b = some v := by
  cases a <;> cases b <;> simp [cellEq]
  exact eq_comm

theorem filter_length_le_one {α} {p : α → Bool} :
    ∀ {l : List α}, l.Pairwise (fun a b => ¬(p a = true ∧ p b = true)) →
      (l.filter p).length ≤ 1 := by
  intro l
  induction l with
  | nil => simp
  | cons a t ih =>
    intro h
    obtain ⟨ha, ht⟩ := List.pairwise_cons.mp h
    by_cases hp : p a = true
    · have hnil : t.filter p = [] :=
        List.filter_eq_nil_iff.mpr (fun b hb hpb => ha b hb ⟨hp, hpb⟩)
      simp [List.filter_cons, hp, hnil]
    · simpa [List.filter_cons, hp] using ih ht

/-- The key cells a row exposes for a key list. -/
def keyTuple (cols : List String) (keys : List String) (r : List Cell) : List Cell :=
  keys.map (getCell cols r)

/-- Under key uniqueness on the right, at most one right row matches. -/
theorem matches_le_one (keys : List String) (L R : Table) (lr : List Cell)
    (hu : R.rows.Pairwise (fun r1 r2 => keyTuple R.cols keys r1 ≠ keyTuple R.cols keys r2)) :
    (R.rows.filter (fun rr => rowMatches keys L.cols lr R.cols rr)).length ≤ 1 := by
  apply filter_length_le_one
  apply hu.imp
  intro r1 r2 hne ⟨h1, h2⟩
  apply hne
  unfold keyTuple
  apply List.map_congr_left
  intro k hk
  rw [rowMatches, List.all_eq_true] at h1 h2
  obtain ⟨v1, hl1, hr1⟩ := cellEq_iff.mp (h1 k hk)
  obtain ⟨v2, hl2, hr2⟩ := cellEq_iff.mp (h2 k hk)
  rw [hr1, hr2, Option.some_inj]
  rw [hl1] at hl2
  exact Option.some_inj.mp hl2

/-- The right-hand extension the merge gives one left row (the cells of its
unique match, or nulls). -/
def pickRest (keys : List String) (L R : Table) (lr : List Cell) : List Cell :=
  match R.rows.filter (fun rr => rowMatches keys L.cols lr R.cols rr) with
  | [] => List.replicate (nonKeyCols keys R.cols).length none
  | rr :: _ => rightPart keys R.cols rr

theorem mergeRowsFor_eq_single (keys : List String) (L R : Table) (lr : List Cell)
    (hu : R.rows.Pairwise (fun r1 r2 => keyTuple R.cols keys r1 ≠ keyTuple R.cols keys r2)) :
    mergeRowsFor keys L R lr = [lr ++ pickRest keys L R lr] := by
  have hle := matches_le_one keys L R lr hu
  unfold mergeRowsFor pickRest
  cases hm : R.rows.filter (fun rr => rowMatches keys L.cols lr R.cols rr) with
  | nil => simp
  | cons a t =>
    rw [hm] at hle
    obtain rfl : t = [] := by
      cases t with
      | nil => rfl
      | cons b u => simp at hle
    simp

theorem mergeLeftOn_rows_eq (keys : List String) (sufL sufR : String) (L R : Table)
    (hu : R.rows.Pairwise (fun r1 r2 => keyTuple R.cols keys r1 ≠ keyTuple R.cols keys r2)) :
    (mergeLeftOn keys sufL sufR L R).rows = L.rows.map (fun lr => lr ++ pickRest keys L R lr) := by
  show L.rows.flatMap (mergeRowsFor keys L R) = _
  induction L.rows with
  | nil => rfl
  | cons r t ih =>
    rw [List.flatMap_cons, mergeRowsFor_eq_single keys L R r hu, List.map_cons, ih]
    rfl

theorem getCell_map_self (g : String → Cell) :
    ∀ (cs : List String) (k : String), k ∈ cs → getCell cs (cs.map g) k = g k := by
  intro cs
  induction cs with
  | nil => simp
  | cons c cs ih =>
    intro k hk
    show (if c = k then (g c :: cs.map g).headD none else getCell cs (g c :: cs.map g).tail k) = g k
    by_cases hc : c = k
    · rw [if_pos hc, hc]
      rfl
    · rw [if_neg hc]
      exact ih k (by
        rcases List.mem_cons.mp hk with h | h
        · exact absurd h.symm hc
        · exact h)

theorem rightPart_all_keys (keys : List String) :
    ∀ (cols : List String) (r : List Cell), (∀ c ∈ cols, keys.contains c = true) →
      rightPart keys cols r = [] := by
  intro cols
  induction cols with
  | nil => intro r _; rfl
  | cons c cs ih =>
    intro r h
    show (if keys.contains c then rightPart keys cs r.tail else _) = []
    rw [if_pos (h c (List.mem_cons_self c cs))]
    exact ih r.tail (fun x hx => h x (List.mem_cons_of_mem c hx))

theorem table_eq (t u : Table) (h1 : t.cols = u.cols) (h2 : t.rows = u.rows) : t = u := by
  cases t
  cases u
  simp only at h1 h2
  rw [h1, h2]

theorem rowMatches_single (k : String) (lcols : List String) (lr : List Cell)
    (rcols : List String) (rr : List Cell) :
    rowMatches [k] lcols lr rcols rr = cellEq (getCell lcols lr k) (getCell rcols rr k) := by
  simp [rowMatches]

/-- C2: when the vehicle table is unique on (accident_index, vehicle_reference)
and the collision table is unique on accident_index, the two-stage join
produces exactly one output row per input casualty row, in order; each output
row extends its casualty row, and a casualty whose accident_index matches no
collision row gets nulls for all collision-side columns. -/
theorem joinStage_one_row_per_casualty (cas veh acc : Table)
    (hc1 : "accident_index" ∈ cas.cols) (hc2 : "vehicle_reference" ∈ cas.cols)
    (hv1 : "accident_index" ∈ veh.cols) (hv2 : "vehicle_reference" ∈ veh.cols)
    (ha : "accident_index" ∈ acc.cols)
    (hveh : veh.rows.Pairwise (fun r1 r2 =>
      keyTuple veh.cols ["accident_index", "vehicle_reference"] r1 ≠
      keyTuple veh.cols ["accident_index", "vehicle_reference"] r2))
    (hacc : acc.rows.Pairwise (fun r1 r2 =>
      getCell acc.cols r1 "accident_index" ≠ getCell acc.cols r2 "accident_index")) :
    ∃ J, joinStage cas veh acc = Except.ok J ∧
      J.rows.length = cas.rows.length ∧
      ∀ i, i < cas.rows.length →
        ∃ rest, J.rows[i]? = some (cas.rows[i]?.getD [] ++ rest) ∧
          ((∀ rr ∈ acc.rows,
              cellEq (getCell cas.cols (cas.rows[i]?.getD []) "accident_index")
                     (getCell acc.cols rr "accident_index") = false) →
            rest = List.replicate (nonKeyCols ["accident_index"] acc.cols).length none) := by
  set ks : List String := ["accident_index", "vehicle_reference"] with hks
  set V : Table := Table.mk ks (veh.rows.map (fun r => ks.map (getCell veh.cols r))) with hV
  have hsel : selectColsE veh ks = Except.ok V := by
    unfold selectColsE
    rw [if_pos (by simp [hks, contains_iff, hv1, hv2])]
  have hVuniq : V.rows.Pairwise (fun r1 r2 =>
      keyTuple V.cols ks r1 ≠ keyTuple V.cols ks r2) := by
    rw [hV]
    simp only [List.pairwise_map]
    apply hveh.imp
    intro r1 r2 hne
    have htr : ∀ r : List Cell,
        keyTuple ks ks (ks.map (getCell veh.cols r)) = keyTuple veh.cols ks r := by
      intro r
      unfold keyTuple
      exact List.map_congr_left (fun k hk => getCell_map_self _ ks k hk)
    rw [htr r1, htr r2]
    exact hne
  have hm1 : mergeLeftOnE ks "" "" cas V = Except.ok cas := by
    unfold mergeLeftOnE
    rw [if_pos (by simp [hks, hV, contains_iff, hc1, hc2])]
    congr 1
    have hcols : mergedCols ks "" "" cas.cols V.cols = cas.cols := by
      unfold mergedCols nonKeyCols
      rw [hV]
      show cas.cols.map _ ++ (ks.filter _).map _ = cas.cols
      have h2 : ks.filter (fun c => !ks.contains c) = [] :=
        List.filter_eq_nil_iff.mpr (fun a hx => by simp [contains_iff, hx])
      rw [h2]
      show cas.cols.map (fun c => if !ks.contains c && ks.contains c then c ++ "" else c) ++ [] = _
      rw [List.append_nil]
      have h3 : ∀ c, (!ks.contains c && ks.contains c) = false := by
        intro c
        cases ks.contains c <;> rfl
      calc cas.cols.map (fun c => if !ks.contains c && ks.contains c then c ++ "" else c)
          = cas.cols.map (fun c => c) := List.map_congr_left (fun c _ => by rw [h3 c]; rfl)
        _ = cas.cols := List.map_id' cas.cols
    have hrows : (mergeLeftOn ks "" "" cas V).rows = cas.rows := by
      rw [mergeLeftOn_rows_eq ks "" "" cas V hVuniq]
      have hpick : ∀ lr, pickRest ks cas V lr = [] := by
        intro lr
        unfold pickRest
        cases hf : V.rows.filter (fun rr => rowMatches ks cas.cols lr V.cols rr) with
        | nil =>
          have : nonKeyCols ks V.cols = [] := by
            rw [hV]
            exact List.filter_eq_nil_iff.mpr (fun a hx => by simp [contains_iff, hx])
          simp [this]
        | cons rr t =>
          apply rightPart_all_keys
          intro c hcm
          rw [hV] at hcm
          simpa [contains_iff] using hcm
      calc cas.rows.map (fun lr => lr ++ pickRest ks cas V lr)
          = cas.rows.map (fun lr => lr) :=
            List.map_congr_left (fun lr _ => by rw [hpick lr, List.append_nil])
        _ = cas.rows := List.map_id' cas.rows
    exact table_eq _ _ hcols hrows
  have haccuniq : acc.rows.Pairwise (fun r1 r2 =>
      keyTuple acc.cols ["accident_index"] r1 ≠ keyTuple acc.cols ["accident_index"] r2) := by
    apply hacc.imp
    intro r1 r2 hne hcontra
    exact hne (by simpa [keyTuple] using hcontra)
  have hm2 : mergeLeftOnE ["accident_index"] "_cas" "_acc" cas acc =
      Except.ok (mergeLeftOn ["accident_index"] "_cas" "_acc" cas acc) := by
    unfold mergeLeftOnE
    rw [if_pos (by simp [contains_iff, hc1, ha])]
  refine ⟨mergeLeftOn ["accident_index"] "_cas" "_acc" cas acc, ?_, ?_, ?_⟩
  · show (do
      let vehSel ← selectColsE veh ks
      let cas1 ← mergeLeftOnE ks "" "" cas vehSel
      mergeLeftOnE ["accident_index"] "_cas" "_acc" cas1 acc) = _
    rw [hsel]
    show (do
      let cas1 ← mergeLeftOnE ks "" "" cas V
      mergeLeftOnE ["accident_index"] "_cas" "_acc" cas1 acc) = _
    rw [hm1]
    exact hm2
  · rw [mergeLeftOn_rows_eq _ _ _ cas acc haccuniq]
    exact List.length_map _ _
  · intro i hi
    refine ⟨pickRest ["accident_index"] cas acc (cas.rows[i]?.getD []), ?_, ?_⟩
    · rw [mergeLeftOn_rows_eq _ _ _ cas acc haccuniq, List.getElem?_map,
        List.getElem?_eq_getElem hi]
      simp
    · intro hnone
      unfold pickRest
      have hf : acc.rows.filter (fun rr =>
          rowMatches ["accident_index"] cas.cols (cas.rows[i]?.getD []) acc.cols rr) = [] := by
        apply List.filter_eq_nil_iff.mpr
        intro rr hrr
        rw [rowMatches_single]
        simp [hnone rr hrr]
      rw [hf]

/-! ## C3: date-field resolution follows table column order, not candidate order -/

theorem resolveDateCol_cons_ne (c : String) (cols : List String)
    (hd : c ≠ "date") (ha : c ≠ "accident_date") :
    resolveDateCol (c :: cols) = resolveDateCol cols := by
  simp [resolveDateCol, List.find?_cons, hd, ha]

/-- C3 (amended): the resolver returns the first column of the table, in the
table's own column order, that is one of the candidates `date` /
`accident_date`; it returns the absent marker exactly when neither candidate
is a column. -/
theorem resolveDateCol_first_in_table_order (pre suf : List String)
    (h1 : "date" ∉ pre) (h2 : "accident_date" ∉ pre) :
    resolveDateCol (pre ++ "date" :: suf) = some "date" ∧
    resolveDateCol (pre ++ "accident_date" :: suf) = some "accident_date" ∧
    ∀ cols : List String, "date" ∉ cols → "accident_date" ∉ cols →
      resolveDateCol cols = none := by
  refine ⟨?_, ?_, ?_⟩
  · induction pre with
    | nil => simp [resolveDateCol, List.find?_cons]
    | cons a t ih =>
      rw [List.cons_append, resolveDateCol_cons_ne a _
        (fun h => h1 (h ▸ List.mem_cons_self a t))
        (fun h => h2 (h ▸ List.mem_cons_self a t))]
      exact ih (fun h => h1 (List.mem_cons_of_mem a h)) (fun h => h2 (List.mem_cons_of_mem a h))
  · induction pre with
    | nil => simp [resolveDateCol, List.find?_cons]
    | cons a t ih =>
      rw [List.cons_append, resolveDateCol_cons_ne a _
        (fun h => h1 (h ▸ List.mem_cons_self a t))
        (fun h => h2 (h ▸ List.mem_cons_self a t))]
      exact ih (fun h => h1 (List.mem_cons_of_mem a h)) (fun h => h2 (List.mem_cons_of_mem a h))
  · intro cols hd ha
    apply List.find?_eq_none.mpr
    intro x hx
    simp only [Bool.or_eq_true, beq_iff_eq, not_or]
    exact ⟨fun h => hd (h ▸ hx), fun h => ha (h ▸ hx)⟩

/-- C3 counterexample: with both candidate columns present but
`accident_date` first in the table, resolution returns `accident_date`,
not the candidate-priority winner `date`. -/
theorem resolveDateCol_not_candidate_priority :
    resolveDateCol ["accident_date", "date"] = some "accident_date" ∧
    ¬ resolveDateCol ["accident_date", "date"] = some "date" := by
  refine ⟨rfl, ?_⟩
  intro h
  simp [resolveDateCol, List.find?_cons] at h

/-! ## C6 and C9: collision-file detection -/

/-- C6: when neither Accidents.csv nor Collisions.csv exists, the run aborts
with the file-read error and produces no output table. -/
theorem missing_collision_file_aborts (d : Dir)
    (h1 : d.accidents = none) (h2 : d.collisions = none) :
    mainRun d = Except.error "FileNotFoundError" := by
  unfold mainRun accFile read_csv
  rw [h1, h2]
  rfl

/-- C9: the presence-check tests only Accidents.csv — when it is present its
contents are used regardless of Collisions.csv, and Collisions.csv is read
only when Accidents.csv is absent. -/
theorem accidents_csv_precedence (d : Dir) :
    (∀ t, d.accidents = some t → accFile d = some t) ∧
    (d.accidents = none → accFile d = d.collisions) := by
  constructor
  · intro t ht
    unfold accFile
    rw [ht]
    rfl
  · intro h
    unfold accFile
    rw [h]
    rfl

/-! ## Projection: shared lemmas for C4, C8, C10 -/

theorem keepCols_sub (jcols : List String) (dc : Option String) :
    ∀ c ∈ keepCols jcols dc, c ∈ jcols := by
  intro c hc
  unfold keepCols at hc
  obtain ⟨-, h2⟩ := List.mem_filter.mp hc
  exact contains_iff.mp ((Bool.and_eq_true _ _).mp h2).2

/-- The tidy table the projection produces (the selection always succeeds
because line 75 filtered `keep_cols` down to present columns). -/
def tidyOf (joined : Table) (dc : Option String) : Table :=
  Table.mk (keepCols joined.cols dc)
    (joined.rows.map (fun r => (keepCols joined.cols dc).map (getCell joined.cols r)))

theorem projectAndRename_eq (joined : Table) (dc : Option String) :
    projectAndRename joined dc = Except.ok (renameSeverity (tidyOf joined dc)) := by
  unfold projectAndRename selectColsE
  rw [if_pos (by
    rw [List.all_eq_true]
    intro c hc
    exact contains_iff.mpr (keepCols_sub _ _ c hc))]
  rfl

theorem mem_projectAndRename_cols (joined : Table) (dc : Option String) (out : Table)
    (c : String) (hout : projectAndRename joined dc = Except.ok out) (hc : c ∈ out.cols) :
    c ∈ joined.cols ∨ (c = "severity" ∧ "casualty_severity" ∈ joined.cols) := by
  rw [projectAndRename_eq] at hout
  injection hout with hout
  subst hout
  unfold renameSeverity at hc
  by_cases hcond : ((tidyOf joined dc).cols.contains "casualty_severity" &&
      !(tidyOf joined dc).cols.contains "severity") = true
  · rw [if_pos hcond] at hc
    simp only at hc
    obtain ⟨k, hk, hkc⟩ := List.mem_map.mp hc
    by_cases hksev : k = "casualty_severity"
    · right
      refine ⟨?_, keepCols_sub _ _ _ (hksev ▸ hk)⟩
      rw [← hkc, hksev]
      rfl
    · left
      rw [if_neg hksev] at hkc
      exact hkc ▸ keepCols_sub _ _ k hk
  · rw [if_neg hcond] at hc
    exact Or.inl (keepCols_sub _ _ c hc)

/-- C10: with no `severity` and no `casualty_severity` in the joined table,
the projection still completes (no error) and the output simply has no
outcome column under either name. -/
theorem no_outcome_column (joined : Table) (dc : Option String)
    (h1 : "severity" ∉ joined.cols) (h2 : "casualty_severity" ∉ joined.cols) :
    ∃ out, projectAndRename joined dc = Except.ok out ∧
      "severity" ∉ out.cols ∧ "casualty_severity" ∉ out.cols := by
  refine ⟨renameSeverity (tidyOf joined dc), projectAndRename_eq joined dc, ?_, ?_⟩
  · intro hmem
    rcases mem_projectAndRename_cols joined dc _ _ (projectAndRename_eq joined dc) hmem with
      h | ⟨-, h⟩
    · exact h1 h
    · exact h2 h
  · intro hmem
    rcases mem_projectAndRename_cols joined dc _ _ (projectAndRename_eq joined dc) hmem with
      h | ⟨h, -⟩
    · exact h2 h
    · exact absurd h (by decide)

/-- C8: every optional field (driver demographics, vehicle type, geolocation,
jurisdiction codes, vehicle/casualty counts) absent from the joined table is
simply absent from the output — no placeholder column is created. -/
theorem optional_fields_only_if_present (joined : Table) (dc : Option String) (n : String)
    (hn : n ∈ ["sex_of_driver", "age_band_of_driver", "vehicle_type",
      "local_authority_(district)", "police_force", "number_of_vehicles",
      "number_of_casualties", "longitude", "latitude"])
    (habs : n ∉ joined.cols) :
    ∃ out, projectAndRename joined dc = Except.ok out ∧ n ∉ out.cols := by
  refine ⟨renameSeverity (tidyOf joined dc), projectAndRename_eq joined dc, ?_⟩
  intro hmem
  rcases mem_projectAndRename_cols joined dc _ _ (projectAndRename_eq joined dc) hmem with
    h | ⟨hsev, -⟩
  · exact habs h
  · subst hsev
    revert hn
    decide

/-! ## C4: exactly one outcome column, always named `severity` -/

theorem count_some_cons (o : Option String) (c : String) (l : List (Option String)) :
    (o :: l).count (some c) = l.count (some c) + (if o = some c then 1 else 0) := by
  rw [List.count_cons]
  congr 1
  simp [beq_iff_eq]

theorem keepEntry_eq_some (p : Prop) [Decidable p] (a c : String) :
    ((if p then some a else none) = some c) ↔ (p ∧ a = c) := by
  by_cases hp : p <;> simp [hp]

theorem count_raw_severity (jcols : List String) (dc : Option String)
    (hdc3 : dc = none ∨ dc = some "date" ∨ dc = some "accident_date") :
    (keepColsRaw jcols dc).count (some "severity") =
      if jcols.contains "severity" then 1 else 0 := by
  rcases hdc3 with rfl | rfl | rfl <;>
    by_cases hs : jcols.contains "severity" = true <;>
      simp [keepColsRaw, count_some_cons, keepEntry_eq_some, hs]

theorem count_raw_casualty_severity (jcols : List String) (dc : Option String)
    (hdc3 : dc = none ∨ dc = some "date" ∨ dc = some "accident_date") :
    (keepColsRaw jcols dc).count (some "casualty_severity") =
      if jcols.contains "severity" then 0 else 1 := by
  rcases hdc3 with rfl | rfl | rfl <;>
    by_cases hs : jcols.contains "severity" = true <;>
      simp [keepColsRaw, count_some_cons, keepEntry_eq_some, hs]

theorem count_filterMap_some (l : List (Option String)) (c : String) :
    (l.filterMap id).count c = l.count (some c) := by
  induction l with
  | nil => rfl
  | cons o t ih =>
    cases o with
    | none => simp [List.filterMap_cons, count_some_cons, List.count_cons, ih]
    | some a => simp [List.filterMap_cons, count_some_cons, List.count_cons, ih]

theorem count_filter_if (p : String → Bool) (c : String) (l : List String) :
    (l.filter p).count c = if p c = true then l.count c else 0 := by
  by_cases hp : p c = true
  · rw [if_pos hp, List.count_filter hp]
  · rw [if_neg hp, List.count_eq_zero]
    intro hc
    exact hp (List.mem_filter.mp hc).2

theorem count_map_renameSev (l : List String) :
    (l.map (fun c => if c = "casualty_severity" then "severity" else c)).count "severity" =
      l.count "severity" + l.count "casualty_severity" ∧
    (l.map (fun c => if c = "casualty_severity" then "severity" else c)).count
      "casualty_severity" = 0 := by
  induction l with
  | nil => simp
  | cons a t ih =>
    by_cases hcs : a = "casualty_severity"
    · subst hcs
      simp only [List.map_cons, if_pos rfl, List.count_cons, ih.1, ih.2, beq_iff_eq]
      constructor <;> simp <;> omega
    · simp only [List.map_cons, if_neg hcs, List.count_cons, ih.1, ih.2, beq_iff_eq]
      constructor
      · split <;> simp [hcs] <;> omega
      · simp [hcs]

/-- C4: whenever the joined table carries the outcome under either source
name, the projected output has exactly one column named `severity` and no
column named `casualty_severity`. -/
theorem severity_canonicalized (joined : Table) (dc : Option String)
    (hdc : ∀ s, dc = some s → s = "date" ∨ s = "accident_date")
    (h : "severity" ∈ joined.cols ∨ "casualty_severity" ∈ joined.cols) :
    ∃ out, projectAndRename joined dc = Except.ok out ∧
      out.cols.count "severity" = 1 ∧ "casualty_severity" ∉ out.cols := by
  have hdc3 : dc = none ∨ dc = some "date" ∨ dc = some "accident_date" := by
    cases dc with
    | none => exact Or.inl rfl
    | some s =>
      rcases hdc s rfl with rfl | rfl
      · exact Or.inr (Or.inl rfl)
      · exact Or.inr (Or.inr rfl)
  refine ⟨renameSeverity (tidyOf joined dc), projectAndRename_eq joined dc, ?_⟩
  have hkeep : keepCols joined.cols dc =
      ((keepColsRaw joined.cols dc).filterMap id).filter
        (fun c => !(c == "") && joined.cols.contains c) := rfl
  have hcount : ∀ c : String, c ≠ "" →
      (keepCols joined.cols dc).count c =
        if joined.cols.contains c then (keepColsRaw joined.cols dc).count (some c) else 0 := by
    intro c hc
    rw [hkeep, count_filter_if, count_filterMap_some]
    by_cases hm : joined.cols.contains c = true
    · rw [if_pos hm, if_pos (by
        rw [Bool.and_eq_true]
        exact ⟨by simp [hc], hm⟩)]
    · rw [if_neg hm, if_neg (by
        intro hcontra
        rw [Bool.and_eq_true] at hcontra
        exact hm hcontra.2)]
  by_cases hs : joined.cols.contains "severity" = true
  · have h1 : (keepCols joined.cols dc).count "severity" = 1 := by
      rw [hcount "severity" (by decide), if_pos hs, count_raw_severity _ _ hdc3, if_pos hs]
    have h2 : (keepCols joined.cols dc).count "casualty_severity" = 0 := by
      rw [hcount "casualty_severity" (by decide)]
      by_cases hcs : joined.cols.contains "casualty_severity" = true
      · rw [if_pos hcs, count_raw_casualty_severity _ _ hdc3, if_pos hs]
      · rw [if_neg hcs]
    have hnomem : "casualty_severity" ∉ (tidyOf joined dc).cols := List.count_eq_zero.mp h2
    have hcond : ((tidyOf joined dc).cols.contains "casualty_severity" &&
        !(tidyOf joined dc).cols.contains "severity") = false := by
      have : (tidyOf joined dc).cols.contains "casualty_severity" = false := by
        cases hx : (tidyOf joined dc).cols.contains "casualty_severity"
        · rfl
        · exact absurd (contains_iff.mp hx) hnomem
      rw [this]
      rfl
    unfold renameSeverity
    rw [if_neg (by rw [hcond]; exact Bool.false_ne_true)]
    exact ⟨h1, hnomem⟩
  · have hcs : joined.cols.contains "casualty_severity" = true := by
      rcases h with hm | hm
      · exact absurd (contains_iff.mpr hm) hs
      · exact contains_iff.mpr hm
    have h1 : (keepCols joined.cols dc).count "severity" = 0 := by
      rw [hcount "severity" (by decide), if_neg hs]
    have h2 : (keepCols joined.cols dc).count "casualty_severity" = 1 := by
      rw [hcount "casualty_severity" (by decide), if_pos hcs,
        count_raw_casualty_severity _ _ hdc3, if_neg hs]
    have hmemcs : "casualty_severity" ∈ (tidyOf joined dc).cols := by
      have : (keepCols joined.cols dc).count "casualty_severity" ≠ 0 := by
        rw [h2]
        exact one_ne_zero
      rw [Ne, List.count_eq_zero] at this
      exact not_not.mp this
    have hnsev : "severity" ∉ (tidyOf joined dc).cols := List.count_eq_zero.mp h1
    have hcond : ((tidyOf joined dc).cols.contains "casualty_severity" &&
        !(tidyOf joined dc).cols.contains "severity") = true := by
      rw [contains_iff.mpr hmemcs]
      have : (tidyOf joined dc).cols.contains "severity" = false := by
        cases hx : (tidyOf joined dc).cols.contains "severity"
        · rfl
        · exact absurd (contains_iff.mp hx) hnsev
      rw [this]
      rfl
    unfold renameSeverity
    rw [if_pos hcond]
    constructor
    · show ((tidyOf joined dc).cols.map _).count "severity" = 1
      rw [(count_map_renameSev (tidyOf joined dc).cols).1]
      show (keepCols joined.cols dc).count "severity" +
        (keepCols joined.cols dc).count "casualty_severity" = 1
      rw [h1, h2]
    · show "casualty_severity" ∉ (tidyOf joined dc).cols.map _
      rw [← List.count_eq_zero]
      exact (count_map_renameSev (tidyOf joined dc).cols).2

/-! ## C5: day-first date derivation -/

theorem getCell_nil (cols : List String) (n : String) : getCell cols [] n = none := by
  induction cols with
  | nil => rfl
  | cons c cs ih =>
    show (if c = n then ([] : List Cell).headD none else getCell cs ([] : List Cell).tail n) = none
    split <;> [rfl; exact ih]

theorem getCell_setAll_self :
    ∀ (cols : List String) (r : List Cell) (n : String) (v : Cell), n ∈ cols →
      getCell cols (setAll cols r n v) n = v := by
  intro cols
  induction cols with
  | nil => simp
  | cons c cs ih =>
    intro r n v hn
    show (if c = n then _ else _) = v
    by_cases hc : c = n
    · rw [if_pos hc]
      show ((if c = n then v else r.headD none) :: setAll cs r.tail n v).headD none = v
      rw [if_pos hc]
      rfl
    · rw [if_neg hc]
      show getCell cs ((if c = n then v else r.headD none) :: setAll cs r.tail n v).tail n = v
      exact ih r.tail n v (by
        rcases List.mem_cons.mp hn with h | h
        · exact absurd h.symm hc
        · exact h)

theorem getCell_setAll_other :
    ∀ (cols : List String) (r : List Cell) (n : String) (v : Cell) (k : String), k ≠ n →
      getCell cols (setAll cols r n v) k = getCell cols r k := by
  intro cols
  induction cols with
  | nil => intro r n v k _; rfl
  | cons c cs ih =>
    intro r n v k hk
    show (if c = k then _ else _) = (if c = k then r.headD none else getCell cs r.tail k)
    by_cases hc : c = k
    · rw [if_pos hc, if_pos hc]
      show ((if c = n then v else r.headD none) :: _).headD none = r.headD none
      rw [if_neg (fun h => hk (hc.symm.trans h))]
      rfl
    · rw [if_neg hc, if_neg hc]
      exact ih r.tail n v k hk

theorem getCell_append_self :
    ∀ (cols : List String) (r : List Cell) (n : String) (v : Cell), n ∉ cols →
      getCell (cols ++ [n]) (padRow cols r ++ [v]) n = v := by
  intro cols
  induction cols with
  | nil =>
    intro r n v _
    show (if n = n then _ else _) = v
    rw [if_pos rfl]
    rfl
  | cons c cs ih =>
    intro r n v hn
    show (if c = n then _ else _) = v
    rw [if_neg (fun h => hn (by rw [← h]; exact List.mem_cons_self c cs))]
    show getCell (cs ++ [n]) ((r.headD none :: (padRow cs r.tail ++ [v])) : List Cell).tail n = v
    exact ih r.tail n v (fun h => hn (List.mem_cons_of_mem c h))

theorem getCell_append_other :
    ∀ (cols : List String) (r : List Cell) (n : String) (v : Cell) (k : String), k ≠ n →
      getCell (cols ++ [n]) (padRow cols r ++ [v]) k = getCell cols r k := by
  intro cols
  induction cols with
  | nil =>
    intro r n v k hk
    show (if n = k then _ else _) = none
    rw [if_neg (fun h => hk h.symm)]
    rfl
  | cons c cs ih =>
    intro r n v k hk
    show (if c = k then _ else _) = (if c = k then r.headD none else getCell cs r.tail k)
    by_cases hc : c = k
    · rw [if_pos hc, if_pos hc]
      rfl
    · rw [if_neg hc, if_neg hc]
      exact ih r.tail n v k hk

theorem zipWith_getD {α β γ} (f : α → β → γ) :
    ∀ (l1 : List α) (l2 : List β) (i : Nat) (d1 : α) (d2 : β) (d3 : γ),
      i < l1.length → i < l2.length →
      (List.zipWith f l1 l2).getD i d3 = f (l1.getD i d1) (l2.getD i d2) := by
  intro l1
  induction l1 with
  | nil => intro l2 i d1 d2 d3 h1 _; simp at h1
  | cons a t ih =>
    intro l2 i d1 d2 d3 h1 h2
    cases l2 with
    | nil => simp at h2
    | cons b u =>
      cases i with
      | zero => rfl
      | succ j =>
        show (List.zipWith f t u).getD j d3 = f (t.getD j d1) (u.getD j d2)
        exact ih u j d1 d2 d3 (by simpa using h1) (by simpa using h2)

theorem map_getD {α β} (f : α → β) :
    ∀ (l : List α) (i : Nat) (d : α) (db : β), i < l.length →
      (l.map f).getD i db = f (l.getD i d) := by
  intro l
  induction l with
  | nil => intro i d db h; simp at h
  | cons a t ih =>
    intro i d db h
    cases i with
    | zero => rfl
    | succ j => exact ih j d db (by simpa using h)

theorem setColVals_rows_length (t : Table) (n : String) (vs : List Cell)
    (h : vs.length = t.rows.length) :
    (setColVals t n vs).rows.length = t.rows.length := by
  unfold setColVals
  split <;> simp [List.length_zipWith, h]

theorem getCell_setColVals_self (t : Table) (n : String) (vs : List Cell) (i : Nat)
    (h : vs.length = t.rows.length) (hi : i < t.rows.length) :
    getCell (setColVals t n vs).cols ((setColVals t n vs).rows.getD i []) n =
      vs.getD i none := by
  unfold setColVals
  by_cases hmem : n ∈ t.cols
  · rw [if_pos hmem]
    show getCell t.cols ((List.zipWith _ t.rows vs).getD i []) n = _
    rw [zipWith_getD _ t.rows vs i [] none [] hi (h ▸ hi)]
    exact getCell_setAll_self t.cols _ n _ hmem
  · rw [if_neg hmem]
    show getCell (t.cols ++ [n]) ((List.zipWith _ t.rows vs).getD i []) n = _
    rw [zipWith_getD _ t.rows vs i [] none [] hi (h ▸ hi)]
    exact getCell_append_self t.cols _ n _ hmem

theorem getCell_setColVals_other (t : Table) (n : String) (vs : List Cell) (i : Nat)
    (k : String) (hk : k ≠ n) (h : vs.length = t.rows.length) (hi : i < t.rows.length) :
    getCell (setColVals t n vs).cols ((setColVals t n vs).rows.getD i []) k =
      getCell t.cols (t.rows.getD i []) k := by
  unfold setColVals
  by_cases hmem : n ∈ t.cols
  · rw [if_pos hmem]
    show getCell t.cols ((List.zipWith _ t.rows vs).getD i []) k = _
    rw [zipWith_getD _ t.rows vs i [] none [] hi (h ▸ hi)]
    exact getCell_setAll_other t.cols _ n _ k hk
  · rw [if_neg hmem]
    show getCell (t.cols ++ [n]) ((List.zipWith _ t.rows vs).getD i []) k = _
    rw [zipWith_getD _ t.rows vs i [] none [] hi (h ▸ hi)]
    exact getCell_append_other t.cols _ n _ k hk

theorem parsedDates_length (t : Table) (dc : String) :
    (parsedDates t dc).length = t.rows.length :=
  List.length_map _ _

theorem parsedDates_getD (t : Table) (dc : String) (i : Nat) (hi : i < t.rows.length) :
    (parsedDates t dc).getD i none = parseDayFirst (getCell t.cols (t.rows.getD i []) dc) := by
  unfold parsedDates
  exact map_getD _ t.rows i [] none hi

theorem deriveDates_cell (t : Table) (dc : String) (i : Nat)
    (h1 : dc ≠ "year") (h2 : dc ≠ "month") (hi : i < t.rows.length) :
    getCell (deriveDates t dc).cols ((deriveDates t dc).rows.getD i []) dc =
      ((parsedDates t dc).getD i none).map dateStr ∧
    getCell (deriveDates t dc).cols ((deriveDates t dc).rows.getD i []) "year" =
      ((parsedDates t dc).getD i none).map yearStr ∧
    getCell (deriveDates t dc).cols ((deriveDates t dc).rows.getD i []) "month" =
      ((parsedDates t dc).getD i none).map monthStr := by
  have hP : ∀ f : Option (Nat × Nat × Nat) → Cell,
      ((parsedDates t dc).map f).length = t.rows.length := by
    intro f
    rw [List.length_map, parsedDates_length]
  have hl1 : (setColVals t dc ((parsedDates t dc).map (fun o => o.map dateStr))).rows.length =
      t.rows.length := setColVals_rows_length _ _ _ (hP _)
  have hl2 : (setColVals
      (setColVals t dc ((parsedDates t dc).map (fun o => o.map dateStr)))
      "year" ((parsedDates t dc).map (fun o => o.map yearStr))).rows.length =
      t.rows.length := by
    rw [setColVals_rows_length _ _ _ (by rw [hP, hl1]), hl1]
  have hPi : ∀ f : Option (Nat × Nat × Nat) → Cell,
      ((parsedDates t dc).map f).getD i none = f ((parsedDates t dc).getD i none) := by
    intro f
    exact map_getD f _ i none none (by rw [parsedDates_length]; exact hi)
  refine ⟨?_, ?_, ?_⟩
  · unfold deriveDates
    rw [getCell_setColVals_other _ _ _ i dc h2 (by rw [hP, hl2]) (by rw [hl2]; exact hi)]
    rw [getCell_setColVals_other _ _ _ i dc h1 (by rw [hP, hl1]) (by rw [hl1]; exact hi)]
    rw [getCell_setColVals_self _ _ _ i (hP _) hi]
    exact hPi _
  · unfold deriveDates
    rw [getCell_setColVals_other _ _ _ i "year" (by decide) (by rw [hP, hl2]) (by rw [hl2]; exact hi)]
    rw [getCell_setColVals_self _ _ _ i (by rw [hP, hl1]) (by rw [hl1]; exact hi)]
    exact hPi _
  · unfold deriveDates
    rw [getCell_setColVals_self _ _ _ i (by rw [hP, hl2]) (by rw [hl2]; exact hi)]
    exact hPi _

/-- C5: with a resolved date column, the value `31/12/2020` parses day-first
into the date 2020-12-31, year 2020 and month-start 2020-12-01; an
unparseable value such as `not-a-date` makes the row's date, year and
month-start null (derivation is total — the run does not fail). -/
theorem date_deriver_spec (t : Table) (dc : String)
    (hdc : dc = "date" ∨ dc = "accident_date") (i : Nat) :
    (getCell t.cols (t.rows.getD i []) dc = some "31/12/2020" →
      getCell (deriveDates t dc).cols ((deriveDates t dc).rows.getD i []) dc =
        some "2020-12-31" ∧
      getCell (deriveDates t dc).cols ((deriveDates t dc).rows.getD i []) "year" =
        some "2020" ∧
      getCell (deriveDates t dc).cols ((deriveDates t dc).rows.getD i []) "month" =
        some "2020-12-01") ∧
    (getCell t.cols (t.rows.getD i []) dc = some "not-a-date" →
      getCell (deriveDates t dc).cols ((deriveDates t dc).rows.getD i []) dc = none ∧
      getCell (deriveDates t dc).cols ((deriveDates t dc).rows.getD i []) "year" = none ∧
      getCell (deriveDates t dc).cols ((deriveDates t dc).rows.getD i []) "month" = none) := by
  have h1 : dc ≠ "year" := by rcases hdc with rfl | rfl <;> decide
  have h2 : dc ≠ "month" := by rcases hdc with rfl | rfl <;> decide
  by_cases hi : i < t.rows.length
  · obtain ⟨hd, hy, hm⟩ := deriveDates_cell t dc i h1 h2 hi
    have hPg := parsedDates_getD t dc i hi
    constructor
    · intro hcell
      rw [hcell] at hPg
      rw [hd, hy, hm, hPg]
      refine ⟨?_, ?_, ?_⟩ <;> decide
    · intro hcell
      rw [hcell] at hPg
      rw [hd, hy, hm, hPg]
      refine ⟨?_, ?_, ?_⟩ <;> decide
  · have hout : t.rows.getD i [] = [] :=
      List.getD_eq_default _ _ (Nat.le_of_not_lt hi)
    constructor <;> intro hcell <;> rw [hout, getCell_nil] at hcell <;> exact absurd hcell (by simp)

/-! ## C1: the vehicle-attribute link is broken in the code

Line 42 merges `veh[[veh_id, veh_ref]]` — the vehicle table cut down to its
two key columns — so no vehicle attribute (vehicle_type, sex_of_driver,
age_band_of_driver) can ever reach the joined table, even for a casualty
whose key matches a vehicle row, although lines 62-64 try to keep exactly
those columns ("vehicle dims (via link)"). -/

def accBug : Table := Table.mk ["accident_index", "date"] [[some "A1", some "31/12/2020"]]

def vehBug : Table := Table.mk
  ["accident_index", "vehicle_reference", "vehicle_type", "sex_of_driver", "age_band_of_driver"]
  [[some "A1", some "1", some "9", some "1", some "6"]]

def casBug : Table := Table.mk
  ["accident_index", "vehicle_reference", "casualty_class", "sex_of_casualty",
   "age_band_of_casualty", "casualty_severity"]
  [[some "A1", some "1", some "3", some "1", some "6", some "2"]]

def dirBug : Dir := Dir.mk (some accBug) none (some vehBug) (some casBug)

/-- The output columns of a run (empty on error). -/
def runCols (e : Except String Table) : List String :=
  match e with
  | Except.ok t => t.cols
  | Except.error _ => []

/-- Did the run succeed? -/
def runOk (e : Except String Table) : Bool :=
  match e with
  | Except.ok _ => true
  | Except.error _ => false

/-- C1: the vehicle table carries vehicle_type / sex_of_driver /
age_band_of_driver and its single row matches the single casualty on the
composite key, yet the completed run's output has none of these columns —
the vehicle-sourced values are dropped, not carried and not even
null-filled. -/
theorem vehicle_attributes_never_reach_output :
    ("vehicle_type" ∈ vehBug.cols ∧ "sex_of_driver" ∈ vehBug.cols ∧
      "age_band_of_driver" ∈ vehBug.cols) ∧
    rowMatches ["accident_index", "vehicle_reference"] casBug.cols (casBug.rows.getD 0 [])
      vehBug.cols (vehBug.rows.getD 0 []) = true ∧
    runOk (mainRun dirBug) = true ∧
    "vehicle_type" ∉ runCols (mainRun dirBug) ∧
    "sex_of_driver" ∉ runCols (mainRun dirBug) ∧
    "age_band_of_driver" ∉ runCols (mainRun dirBug) := by
  decide

/-! ## Witnesses -/

def accW : Table := Table.mk ["accident_index", "light_conditions"]
  [[some "A1", some "1"], [some "A2", some "4"]]

def vehW : Table := Table.mk ["accident_index", "vehicle_reference"]
  [[some "A1", some "1"], [some "A2", some "1"]]

def casW : Table := Table.mk ["accident_index", "vehicle_reference", "casualty_severity"]
  [[some "A1", some "1", some "2"], [some "A1", some "2", some "3"], [some "A2", some "1", some "1"]]

theorem joinStage_one_row_per_casualty_witness :
    ∃ J, joinStage casW vehW accW = Except.ok J ∧
      J.rows.length = casW.rows.length ∧
      ∀ i, i < casW.rows.length →
        ∃ rest, J.rows[i]? = some (casW.rows[i]?.getD [] ++ rest) ∧
          ((∀ rr ∈ accW.rows,
              cellEq (getCell casW.cols (casW.rows[i]?.getD []) "accident_index")
                     (getCell accW.cols rr "accident_index") = false) →
            rest = List.replicate (nonKeyCols ["accident_index"] accW.cols).length none) :=
  joinStage_one_row_per_casualty casW vehW accW (by decide) (by decide) (by decide)
    (by decide) (by decide) (by decide) (by decide)

theorem resolveDateCol_first_in_table_order_witness :
    resolveDateCol ["casualty_class", "date", "severity"] = some "date" ∧
    resolveDateCol ["casualty_class", "accident_date"] = some "accident_date" ∧
    resolveDateCol ["speed_limit"] = none :=
  ⟨(resolveDateCol_first_in_table_order ["casualty_class"] ["severity"]
      (by decide) (by decide)).1,
   (resolveDateCol_first_in_table_order ["casualty_class"] [] (by decide) (by decide)).2.1,
   (resolveDateCol_first_in_table_order [] [] (by decide) (by decide)).2.2
      ["speed_limit"] (by decide) (by decide)⟩

def joinedW4 : Table := Table.mk
  ["accident_index", "vehicle_reference", "casualty_severity", "casualty_class"] []

theorem severity_canonicalized_witness :
    ∃ out, projectAndRename joinedW4 (some "date") = Except.ok out ∧
      out.cols.count "severity" = 1 ∧ "casualty_severity" ∉ out.cols :=
  severity_canonicalized joinedW4 (some "date")
    (fun _ hs => Or.inl (Option.some.inj hs).symm) (Or.inr (by decide))

def accW5 : Table := Table.mk ["accident_index", "date"]
  [[some "A1", some "31/12/2020"], [some "A2", some "not-a-date"]]

theorem date_deriver_spec_witness :
    (getCell (deriveDates accW5 "date").cols
        ((deriveDates accW5 "date").rows.getD 0 []) "date" = some "2020-12-31" ∧
      getCell (deriveDates accW5 "date").cols
        ((deriveDates accW5 "date").rows.getD 0 []) "year" = some "2020" ∧
      getCell (deriveDates accW5 "date").cols
        ((deriveDates accW5 "date").rows.getD 0 []) "month" = some "2020-12-01") ∧
    (getCell (deriveDates accW5 "date").cols
        ((deriveDates accW5 "date").rows.getD 1 []) "date" = none ∧
      getCell (deriveDates accW5 "date").cols
        ((deriveDates accW5 "date").rows.getD 1 []) "year" = none ∧
      getCell (deriveDates accW5 "date").cols
        ((deriveDates accW5 "date").rows.getD 1 []) "month" = none) :=
  ⟨(date_deriver_spec accW5 "date" (Or.inl rfl) 0).1 (by decide),
   (date_deriver_spec accW5 "date" (Or.inl rfl) 1).2 (by decide)⟩

theorem missing_collision_file_aborts_witness :
    mainRun (Dir.mk none none none none) = Except.error "FileNotFoundError" :=
  missing_collision_file_aborts (Dir.mk none none none none) rfl rfl

def joinedW8 : Table := Table.mk ["accident_index", "vehicle_reference", "severity"] []

theorem optional_fields_only_if_present_witness :
    ∃ out, projectAndRename joinedW8 none = Except.ok out ∧ "vehicle_type" ∉ out.cols :=
  optional_fields_only_if_present joinedW8 none "vehicle_type" (by decide) (by decide)

def accTblW9 : Table := Table.mk ["accident_index"] []

def collTblW9 : Table := Table.mk ["collision_x"] []

theorem accidents_csv_precedence_witness :
    accFile (Dir.mk (some accTblW9) (some collTblW9) none none) = some accTblW9 ∧
    accFile (Dir.mk none (some collTblW9) none none) = some collTblW9 :=
  ⟨(accidents_csv_precedence (Dir.mk (some accTblW9) (some collTblW9) none none)).1
      accTblW9 rfl,
   (accidents_csv_precedence (Dir.mk none (some collTblW9) none none)).2 rfl⟩

def joinedW10 : Table := Table.mk ["accident_index", "vehicle_reference", "casualty_class"] []

theorem no_outcome_column_witness :
    ∃ out, projectAndRename joinedW10 none = Except.ok out ∧
      "severity" ∉ out.cols ∧ "casualty_severity" ∉ out.cols :=
  no_outcome_column joinedW10 none (by decide) (by decide)
